import Mathlib

/-!
# Verification of the RAG-with-Nyx result-set construction pipeline

Shallow embedding of the repository's core logic:

* `src/advanced-rag/retriever.py` — `Retriever._parse_data` (the Triple
  Parser), `Retriever._search_nyx_for_files` (the filter-query Search
  Orchestrator, including the SPARQL filter-expression builder), and
  `Retriever.retrieve` / `Retriever._infer_categories_and_genres`.
* `src/chatbot.py` — `search_nyx_for_files` (the cartesian-combination
  Search Orchestrator with its `(name, creator)` Deduplicator) and
  `infer_categories_and_genres`.

Conventions of the embedding:

* Python strings are `String`, Python `int` is `Int`.
* `str.strip()` is modelled by `pyStrip` (ASCII-whitespace stripping) and
  `int(s)` by `pyParseInt`, which returns `none` exactly when the Python
  call would raise `ValueError`.
* Code that can raise is embedded in `Option`: a `none` result stands for
  an exception propagating out of the embedded block.
* The CSV layer (`csv.reader` over `raw_data.strip().split("\n")`) is an
  external stdlib boundary; the parser is embedded at the level of the row
  list the reader yields (`List (List String)`), header row included.
* The external `nyx_client` SDK is abstracted: `Data` is the record the
  code constructs field-by-field, and the network calls (`get_data`,
  `sparql_query`) are parameters of the embedded functions.
-/

namespace RAGNyx

/-- ASCII whitespace, as stripped by Python's `str.strip()`. -/
def pyIsSpace (c : Char) : Bool :=
  c = ' ' || c = '\t' || c = '\n' || c = '\r' || c = '\x0b' || c = '\x0c'

/-- Model of Python `str.strip()`: drop leading and trailing whitespace. -/
def pyStrip (s : String) : String :=
  ⟨((s.data.dropWhile pyIsSpace).reverse.dropWhile pyIsSpace).reverse⟩

/-- Digit run of a Python integer literal, allowing `_` separators between
digits (as `int` does); `acc` is the value of the digits already read. -/
def pyDigitsCore : Nat → List Char → Option Nat
  | acc, [] => some acc
  | acc, c :: rest =>
    if c.isDigit then pyDigitsCore (acc * 10 + (c.toNat - 48)) rest
    else if c = '_' then
      match rest with
      | d :: _ => if d.isDigit then pyDigitsCore acc rest else none
      | [] => none
    else none

/-- Nonempty digit run (first character must be a digit). -/
def pyParseDigits : List Char → Option Nat
  | [] => none
  | c :: rest => if c.isDigit then pyDigitsCore (c.toNat - 48) rest else none

/-- Model of Python `int(s)`: optional surrounding whitespace, optional
sign, base-10 digits with optional underscore separators. `none` models
the `ValueError` Python raises on any other input. -/
def pyParseInt (s : String) : Option Int :=
  match (pyStrip s).data with
  | '-' :: rest => (pyParseDigits rest).map (fun n => -(n : Int))
  | '+' :: rest => (pyParseDigits rest).map (fun n => (n : Int))
  | l => (pyParseDigits l).map (fun n => (n : Int))

/-- The Dataset Record, as constructed field-by-field by
`Retriever._parse_data` (the fields of the `temp_data_map` accumulator,
copied verbatim into the `nyx_client` `Data` constructor). -/
structure Data where
  name : String
  title : String
  description : String
  org : String
  url : String
  content_type : String
  creator : String
  categories : List String
  genre : String
  size : Int
  deriving DecidableEq, Repr

/-- The accumulator a fresh subject is initialised with
(`retriever.py` lines 157–168): every field empty/zero except `org`,
which is copied from the client's organization context. -/
def defaultData (org : String) : Data :=
  { name := ""
    title := ""
    description := ""
    org := org
    url := ""
    content_type := ""
    creator := ""
    categories := []
    genre := ""
    size := 0 }

/-- Predicate IRIs recognized by the elif-chain of `_parse_data`
(`retriever.py` lines 171–188), in source order. -/
def productNameIRI : String := "http://data.iotics.com/pnyx#productName"

def titleIRI : String := "http://purl.org/dc/terms/title"

def descriptionIRI : String := "http://purl.org/dc/terms/description"

def creatorIRI : String := "http://purl.org/dc/terms/creator"

def themeIRI : String := "http://www.w3.org/ns/dcat#theme"

def typeIRI : String := "http://purl.org/dc/terms/type"

def byteSizeIRI : String := "http://www.w3.org/ns/dcat#byteSize"

def accessURLIRI : String := "http://www.w3.org/ns/dcat#accessURL"

def mediaTypeIRI : String := "http://www.w3.org/ns/dcat#mediaType"

/-- The elif-chain of `_parse_data` mapping one `(predicate, object)` pair
onto the subject's accumulator (`retriever.py` lines 170–188). A `none`
result models the `ValueError` raised by `int(obj)` on a non-numeric
byte-size object; every other branch (including the implicit final else,
which ignores unrecognized predicates) cannot raise. -/
def updateField (d : Data) (predicate obj : String) : Option Data :=
  if predicate = productNameIRI then some { d with name := obj }
  else if predicate = titleIRI then some { d with title := obj }
  else if predicate = descriptionIRI then some { d with description := obj }
  else if predicate = creatorIRI then some { d with creator := obj }
  else if predicate = themeIRI then some { d with categories := d.categories ++ [obj] }
  else if predicate = typeIRI then some { d with genre := obj }
  else if predicate = byteSizeIRI then (pyParseInt obj).map (fun n => { d with size := n })
  else if predicate = accessURLIRI then some { d with url := obj }
  else if predicate = mediaTypeIRI then some { d with content_type := obj }
  else some d

/-- Insertion-ordered association list: the model of the Python dict
`temp_data_map` (dicts preserve insertion order). -/
abbrev AccMap := List (String × Data)

/-- Lookup by key in the insertion-ordered map. -/
def lookupA : AccMap → String → Option Data
  | [], _ => none
  | (k, v) :: rest, s => if k = s then some v else lookupA rest s

/-- Dict assignment `m[k] = v`: update in place if the key is present,
append at the end (preserving insertion order) if it is new. -/
def assocUpdate : AccMap → String → Data → AccMap
  | [], k, v => [(k, v)]
  | (k', v') :: rest, k, v =>
    if k' = k then (k, v) :: rest else (k', v') :: assocUpdate rest k v

/-- One iteration of the row loop of `_parse_data` (`retriever.py` lines
150–188): skip rows with fewer than 3 fields; otherwise strip the first
three fields, initialise the subject's accumulator if absent, and apply
the predicate mapping. `none` models the `int(obj)` exception aborting
the whole parse. -/
def parseRow (org : String) (m : AccMap) (row : List String) : Option AccMap :=
  if row.length < 3 then some m
  else
    match row with
    | s :: p :: o :: _ =>
      let subject := pyStrip s
      let cur := (lookupA m subject).getD (defaultData org)
      match updateField cur (pyStrip p) (pyStrip o) with
      | some d => some (assocUpdate m subject d)
      | none => none
    | _ => some m

/-- The row loop of `_parse_data` over a list of (already header-free)
rows, threading the subject accumulator map. -/
def parseRows (org : String) : AccMap → List (List String) → Option AccMap
  | m, [] => some m
  | m, row :: rest =>
    match parseRow org m row with
    | some m' => parseRows org m' rest
    | none => none

/-- `Retriever._parse_data` (`retriever.py` lines 144–207): drop the
header row (`next(csv_reader)`), run the row loop from an empty map, then
emit one `Data` record per accumulator in insertion order, copying the
fields verbatim. -/
def parse_data (org : String) (rows : List (List String)) : Option (List Data) :=
  (parseRows org [] rows.tail).map (fun m => m.map Prod.snd)

/-! ## Deduplicator and cartesian search (`src/chatbot.py`) -/

/-- The composite deduplication key `(data.name, data.creator)`
(`chatbot.py` line 103). -/
def dataKey (d : Data) : String × String :=
  (d.name, d.creator)

/-- The single-pass seen-set loop of the Deduplicator (`chatbot.py` lines
100–107); the Python `set` is modelled as the list of keys added so far,
consulted only through membership. -/
def dedupGo (seen : List (String × String)) : List Data → List Data
  | [] => []
  | d :: rest =>
    if dataKey d ∈ seen then dedupGo seen rest
    else d :: dedupGo (dataKey d :: seen) rest

/-- The Deduplicator: `seen = set(); unique_results = []; ...`
(`chatbot.py` lines 99–107). -/
def removeDuplicates (l : List Data) : List Data :=
  dedupGo [] l

/-- `search_nyx_for_files` (`chatbot.py` lines 77–117), cartesian
combination strategy: for every `(category, genre)` pair, one
`client.get_data(categories=[c], genre=g, content_type="text/csv")`
call, results extended in iteration order, then deduplicated. The
marketplace client is abstracted as the function `getData`. -/
def search_nyx_for_files (getData : List String → String → String → List Data)
    (categories genres : List String) : List Data :=
  let results := categories.foldl
    (fun acc c => genres.foldl (fun acc g => acc ++ getData [c] g "text/csv") acc) []
  removeDuplicates results

/-- `search_nyx_for_files` as actually invoked by `chatbot.py main`
(lines 242–251): the inferred keyword lists come from `dict.get` and may
be Python `None`. Iterating `None` raises `TypeError` inside the `try`
block, which the broad `except` turns into an empty result list
(`chatbot.py` lines 115–117). -/
def search_nyx_for_files_opt (getData : List String → String → String → List Data)
    (categories genres : Option (List String)) : List Data :=
  match categories, genres with
  | some cs, some gs => search_nyx_for_files getData cs gs
  | _, _ => []

/-! ## Keyword inference (`chatbot.py` lines 30–75,
`retriever.py` lines 29–93) -/

/-- The JSON object the LLM reply parses to, projected to the two keys
the code reads with `dict.get`: a missing key reads as `none` (Python
`None`). -/
structure InferredKeywords where
  categories : Option (List String)
  genres : Option (List String)
  deriving DecidableEq, Repr

/-- `infer_categories_and_genres` / `Retriever._infer_categories_and_genres`:
the whole LLM round trip sits in one `try` block. `llmReply = none` models
any failure in it (network error, non-JSON reply, …), in which case the
`except` branch returns the literal dict with `categories = []` and
`genres = []`; `llmReply = some kw` models a reply that parsed as a JSON
object, returned as-is. -/
def infer_categories_and_genres (llmReply : Option InferredKeywords) : InferredKeywords :=
  match llmReply with
  | some kw => kw
  | none => { categories := some [], genres := some [] }

/-! ## Filter-query search (`retriever.py` lines 95–141) -/

/-- The category filter expression (`retriever.py` line 112):
`"FILTER(?theme IN (" + ", ".join(f...) + "))"`. -/
def category_filter (categories : List String) : String :=
  "FILTER(?theme IN (" ++
    String.intercalate ", " (categories.map (fun cat => "\"" ++ cat ++ "\"")) ++ "))"

/-- The genre filter expression (`retriever.py` line 113). -/
def genre_filter (genres : List String) : String :=
  "FILTER(?type IN (" ++
    String.intercalate ", " (genres.map (fun gen => "\"" ++ gen ++ "\"")) ++ "))"

/-- The SPARQL query assembled by `_search_nyx_for_files`
(`retriever.py` lines 119–128); surrounding indentation whitespace of the
Python f-string is elided. -/
def sparql_query (catF genF : String) : String :=
  "SELECT DISTINCT ?subject ?predicate ?object WHERE \x7b " ++
    "?subject ?predicate ?object . " ++
    "?subject <http://www.w3.org/ns/dcat#theme> ?theme . " ++
    "?subject <http://purl.org/dc/terms/type> ?type . " ++
    catF ++ " " ++ genF ++ " \x7d"

/-- `Retriever._search_nyx_for_files` (`retriever.py` lines 95–141).
`sparqlExec` abstracts `nyx_client.sparql_query` composed with the CSV
reader: it maps the query text to the row list of the response, `none`
modelling a raised client error. The whole body sits in one `try` block:
iterating a Python `None` keyword list raises `TypeError` while building
the filter, a client error or a `_parse_data` failure raises inside the
block; every such exception is turned into `[]` by the broad `except`
(lines 139–141). -/
def retriever_search (sparqlExec : String → Option (List (List String))) (org : String)
    (categories genres : Option (List String)) : List Data :=
  match categories, genres with
  | some cats, some gens =>
    match sparqlExec (sparql_query (category_filter cats) (genre_filter gens)) with
    | some rows =>
      match parse_data org rows with
      | some results => results
      | none => []
    | none => []
  | _, _ => []

/-- `Retriever.retrieve` (`retriever.py` lines 17–26): infer keywords,
read them with `dict.get` (missing key ↦ `None`), pass them to the
search step. -/
def retrieve (sparqlExec : String → Option (List (List String))) (org : String)
    (llmReply : Option InferredKeywords) : List Data :=
  let kw := infer_categories_and_genres llmReply
  retriever_search sparqlExec org kw.categories kw.genres

/-! ## Specification-side definitions

The following definitions restate parts of the specification's language
(first-appearance order, per-subject row projections, last-written
object); the claim theorems compare the embedded code against them. -/

/-- First field of a row (defaulting to the empty string). -/
def field0 : List String → String
  | [] => ""
  | a :: _ => a

/-- Second field of a row. -/
def field1 : List String → String
  | [] => ""
  | _ :: r => field0 r

/-- Third field of a row. -/
def field2 : List String → String
  | [] => ""
  | _ :: r => field1 r

/-- Spec-side: the sequence of (stripped) subjects of the well-formed
rows, in row order, one entry per row. -/
def subjectsOf (rows : List (List String)) : List String :=
  (rows.filter (fun r => !decide (r.length < 3))).map (fun r => pyStrip (field0 r))

/-- Spec-side: keep the first occurrence of each element, dropping later
repeats; `seen` is the set of elements already recorded. `firstDedupAux
[] l` is the list of distinct elements of `l` in order of first
appearance. -/
def firstDedupAux (seen : List String) : List String → List String
  | [] => []
  | s :: rest =>
    if s ∈ seen then firstDedupAux seen rest
    else s :: firstDedupAux (s :: seen) rest

/-- Spec-side: the `(stripped predicate, stripped object)` pairs of the
well-formed rows whose stripped subject is `s`, in row order. -/
def rowsFor (s : String) (rows : List (List String)) : List (String × String) :=
  (rows.filter (fun r => !decide (r.length < 3) && decide (pyStrip (field0 r) = s))).map
    (fun r => (pyStrip (field1 r), pyStrip (field2 r)))

/-- Spec-side: the objects of all pairs carrying predicate `p`, in order. -/
def objsOf (p : String) (rs : List (String × String)) : List String :=
  (rs.filter (fun po => decide (po.1 = p))).map Prod.snd

/-- Spec-side: fold the predicate mapping over a subject's own
`(predicate, object)` pairs; the per-subject view of the row loop. -/
def applyPreds (d : Data) : List (String × String) → Option Data
  | [] => some d
  | (p, o) :: rest =>
    match updateField d p o with
    | some d' => applyPreds d' rest
    | none => none

/-- The list of recognized predicate IRIs, in source order. -/
def recognizedPredicates : List String :=
  [productNameIRI, titleIRI, descriptionIRI, creatorIRI, themeIRI,
   typeIRI, byteSizeIRI, accessURLIRI, mediaTypeIRI]

/-! ## Helper lemmas: the accumulator map -/

lemma lookupA_eq_none_iff (m : AccMap) (s : String) :
    lookupA m s = none ↔ s ∉ m.map Prod.fst := by
  induction m with
  | nil => simp [lookupA]
  | cons kv rest ih =>
    obtain ⟨k, v⟩ := kv
    by_cases h : k = s
    · subst h
      simp [lookupA]
    · simp [lookupA, h, ih, (Ne.symm h : ¬s = k)]

lemma lookupA_isSome_iff (m : AccMap) (s : String) :
    (lookupA m s).isSome ↔ s ∈ m.map Prod.fst := by
  rw [← not_iff_not]
  simp only [Option.not_isSome_iff_eq_none]
  exact lookupA_eq_none_iff m s

lemma lookupA_assocUpdate_self (m : AccMap) (k : String) (v : Data) :
    lookupA (assocUpdate m k v) k = some v := by
  induction m with
  | nil => simp [assocUpdate, lookupA]
  | cons kv rest ih =>
    obtain ⟨k', v'⟩ := kv
    by_cases h : k' = k <;> simp [assocUpdate, lookupA, h, ih]

lemma lookupA_assocUpdate_ne (m : AccMap) (k : String) (v : Data) (s : String)
    (h : s ≠ k) : lookupA (assocUpdate m k v) s = lookupA m s := by
  induction m with
  | nil => simp [assocUpdate, lookupA, (Ne.symm h : k ≠ s)]
  | cons kv rest ih =>
    obtain ⟨k', v'⟩ := kv
    by_cases hk : k' = k
    · subst hk
      simp [assocUpdate, lookupA, (Ne.symm h : k' ≠ s)]
    · by_cases hs : k' = s
      · subst hs
        simp [assocUpdate, lookupA, hk]
      · simp [assocUpdate, lookupA, hk, hs, ih]

lemma keys_assocUpdate_mem (m : AccMap) (k : String) (v : Data)
    (h : k ∈ m.map Prod.fst) :
    (assocUpdate m k v).map Prod.fst = m.map Prod.fst := by
  induction m with
  | nil => simp at h
  | cons kv rest ih =>
    obtain ⟨k', v'⟩ := kv
    by_cases hk : k' = k
    · simp [assocUpdate, hk]
    · simp only [List.map_cons, List.mem_cons] at h
      rcases h with h | h

      · exact absurd h.symm hk
      · simp [assocUpdate, hk, ih h]

lemma keys_assocUpdate_not_mem (m : AccMap) (k : String) (v : Data)
    (h : k ∉ m.map Prod.fst) :
    (assocUpdate m k v).map Prod.fst = m.map Prod.fst ++ [k] := by
  induction m with
  | nil => simp [assocUpdate]
  | cons kv rest ih =>
    obtain ⟨k', v'⟩ := kv
    simp only [List.map_cons, List.mem_cons] at h
    push_neg at h
    simp [assocUpdate, Ne.symm h.1, ih h.2]

/-! ## Helper lemmas: first-appearance order -/

lemma firstDedupAux_congr (s₁ s₂ : List String) (l : List String)
    (h : ∀ x, x ∈ s₁ ↔ x ∈ s₂) : firstDedupAux s₁ l = firstDedupAux s₂ l := by
  induction l generalizing s₁ s₂ with
  | nil => rfl
  | cons a rest ih =>
    by_cases ha : a ∈ s₁
    · rw [firstDedupAux, firstDedupAux, if_pos ha, if_pos ((h a).1 ha)]
      exact ih _ _ h
    · rw [firstDedupAux, firstDedupAux, if_neg ha, if_neg (fun hh => ha ((h a).2 hh))]
      refine congrArg _ (ih _ _ ?_)
      intro x
      simp [List.mem_cons, h x]

lemma mem_firstDedupAux (seen l : List String) (x : String) :
    x ∈ firstDedupAux seen l ↔ x ∈ l ∧ x ∉ seen := by
  induction l generalizing seen with
  | nil => simp [firstDedupAux]
  | cons a rest ih =>
    by_cases ha : a ∈ seen
    · rw [firstDedupAux, if_pos ha]
      rw [ih]
      constructor
      · exact fun hh => ⟨List.mem_cons_of_mem _ hh.1, hh.2⟩
      · rintro ⟨hx, hns⟩
        rcases List.mem_cons.1 hx with rfl | hx
        · exact absurd ha hns
        · exact ⟨hx, hns⟩
    · rw [firstDedupAux, if_neg ha]
      by_cases hxa : x = a
      · subst hxa
        simp [ha]
      · rw [List.mem_cons]
        rw [ih]
        simp [hxa, List.mem_cons]

lemma nodup_firstDedupAux (seen l : List String) :
    (firstDedupAux seen l).Nodup := by
  induction l generalizing seen with
  | nil => exact List.nodup_nil
  | cons a rest ih =>
    by_cases ha : a ∈ seen
    · rw [firstDedupAux, if_pos ha]
      exact ih seen
    · rw [firstDedupAux, if_neg ha]
      refine List.nodup_cons.2 ⟨?_, ih _⟩
      intro hmem
      exact ((mem_firstDedupAux _ _ _).1 hmem).2 (List.mem_cons_self a seen)

/-! ## Helper lemmas: shapes of the spec-side row projections -/

lemma subjectsOf_cons (r : List String) (rest : List (List String)) :
    subjectsOf (r :: rest) =
      if r.length < 3 then subjectsOf rest
      else pyStrip (field0 r) :: subjectsOf rest := by
  by_cases h : r.length < 3 <;> simp [subjectsOf, List.filter_cons, h]

lemma rowsFor_cons (s : String) (r : List String) (rest : List (List String)) :
    rowsFor s (r :: rest) =
      if r.length < 3 then rowsFor s rest
      else if pyStrip (field0 r) = s then
        (pyStrip (field1 r), pyStrip (field2 r)) :: rowsFor s rest
      else rowsFor s rest := by
  by_cases h : r.length < 3
  · simp [rowsFor, List.filter_cons, h]
  · by_cases hs : pyStrip (field0 r) = s <;> simp [rowsFor, List.filter_cons, h, hs]

lemma parseRow_short (org : String) (m : AccMap) (row : List String)
    (hlen : row.length < 3) : parseRow org m row = some m := by
  rcases row with _ | ⟨a, _ | ⟨b, _ | ⟨c, tl⟩⟩⟩
  · rfl
  · rfl
  · rfl
  · exact absurd hlen (by simp only [List.length_cons]; omega)

lemma parseRow_cons₃ (org : String) (m : AccMap) (a p o : String) (tl : List String) :
    parseRow org m (a :: p :: o :: tl) =
      match updateField ((lookupA m (pyStrip a)).getD (defaultData org))
          (pyStrip p) (pyStrip o) with
      | some d => some (assocUpdate m (pyStrip a) d)
      | none => none := by
  rfl

/-! ## Helper lemmas: the row loop -/

lemma parseRows_keys (org : String) :
    ∀ (rows : List (List String)) (m m' : AccMap),
      parseRows org m rows = some m' →
      m'.map Prod.fst
        = m.map Prod.fst ++ firstDedupAux (m.map Prod.fst) (subjectsOf rows) := by
  intro rows
  induction rows with
  | nil =>
    intro m m' h
    simp only [parseRows, Option.some.injEq] at h
    subst h
    simp [subjectsOf, firstDedupAux]
  | cons r rest ih =>
    intro m m' h
    by_cases hlen : r.length < 3
    · rw [parseRows, parseRow_short org m r hlen] at h
      rw [subjectsOf_cons, if_pos hlen]
      exact ih m m' h
    · rcases r with _ | ⟨a, _ | ⟨p, _ | ⟨o, tl⟩⟩⟩
      · simp at hlen
      · simp at hlen
      · simp at hlen
      · rw [parseRows, parseRow_cons₃] at h
        rcases hud : updateField ((lookupA m (pyStrip a)).getD (defaultData org))
            (pyStrip p) (pyStrip o) with _ | d₁
        · rw [hud] at h
          exact absurd h (by simp)
        · rw [hud] at h
          simp only at h
          rw [subjectsOf_cons, if_neg hlen]
          have hkeys := ih _ _ h
          show List.map Prod.fst m'
            = List.map Prod.fst m
              ++ firstDedupAux (List.map Prod.fst m) (pyStrip (field0 (a :: p :: o :: tl)) :: subjectsOf rest)
          simp only [field0]
          by_cases hmem : pyStrip a ∈ m.map Prod.fst
          · rw [keys_assocUpdate_mem m _ d₁ hmem] at hkeys
            rw [hkeys, firstDedupAux, if_pos hmem]
          · rw [keys_assocUpdate_not_mem m _ d₁ hmem] at hkeys
            rw [hkeys, firstDedupAux, if_neg hmem]
            rw [firstDedupAux_congr (m.map Prod.fst ++ [pyStrip a])
                  (pyStrip a :: m.map Prod.fst) _ (by intro x; simp [or_comm])]
            simp

lemma applyPreds_cons (d : Data) (p o : String) (rs : List (String × String)) :
    applyPreds d ((p, o) :: rs) =
      match updateField d p o with
      | some d' => applyPreds d' rs
      | none => none := rfl

/-- Per-subject view of the row loop: on success, each subject's final
accumulator is the fold of the predicate mapping over that subject's own
rows, starting from the default accumulator (or from the value the
subject already had in `m`); subjects never seen end up absent. -/
lemma parseRows_lookup (org : String) :
    ∀ (rows : List (List String)) (m m' : AccMap),
      parseRows org m rows = some m' → ∀ s : String,
        (lookupA m s = none → s ∉ subjectsOf rows → lookupA m' s = none) ∧
        (∀ d₀, lookupA m s = some d₀ →
          lookupA m' s = applyPreds d₀ (rowsFor s rows)) ∧
        (lookupA m s = none → s ∈ subjectsOf rows →
          lookupA m' s = applyPreds (defaultData org) (rowsFor s rows)) := by
  intro rows
  induction rows with
  | nil =>
    intro m m' h s
    simp only [parseRows, Option.some.injEq] at h
    subst h
    refine ⟨fun hn _ => hn, fun d₀ hd => ?_,
      fun _ hmem => absurd hmem (by simp [subjectsOf])⟩
    simp [rowsFor, applyPreds, hd]
  | cons r rest ih =>
    intro m m' h s
    by_cases hlen : r.length < 3
    · rw [parseRows, parseRow_short org m r hlen] at h
      simp only [subjectsOf_cons, rowsFor_cons, if_pos hlen]
      exact ih m m' h s
    · rcases r with _ | ⟨a, _ | ⟨p, _ | ⟨o, tl⟩⟩⟩
      · simp at hlen
      · simp at hlen
      · simp at hlen
      · rw [parseRows, parseRow_cons₃] at h
        rcases hud : updateField ((lookupA m (pyStrip a)).getD (defaultData org))
            (pyStrip p) (pyStrip o) with _ | d₁
        · rw [hud] at h
          exact absurd h (by simp)
        · rw [hud] at h
          simp only at h
          simp only [subjectsOf_cons, rowsFor_cons, if_neg hlen, field0, field1, field2]
          by_cases hsa : pyStrip a = s
          · subst hsa
            rw [if_pos rfl]
            have hself : lookupA (assocUpdate m (pyStrip a) d₁) (pyStrip a) = some d₁ :=
              lookupA_assocUpdate_self m (pyStrip a) d₁
            have hrest := (ih _ _ h (pyStrip a)).2.1 d₁ hself
            refine ⟨fun _ hmem => absurd (List.mem_cons_self _ _) hmem,
              fun d₀ hd₀ => ?_, fun hnone _ => ?_⟩
            · rw [hd₀] at hud
              simp only [Option.getD_some] at hud
              rw [applyPreds_cons, hud]
              exact hrest
            · rw [hnone] at hud
              simp only [Option.getD_none] at hud
              rw [applyPreds_cons, hud]
              exact hrest
          · rw [if_neg hsa]
            have hne : s ≠ pyStrip a := fun hh => hsa hh.symm
            have hl₁ : lookupA (assocUpdate m (pyStrip a) d₁) s = lookupA m s :=
              lookupA_assocUpdate_ne m (pyStrip a) d₁ s hne
            have IH := ih _ _ h s
            refine ⟨fun hnone hmem => ?_, fun d₀ hd₀ => ?_, fun hnone hmem => ?_⟩
            · exact IH.1 (hl₁.trans hnone)
                (fun hh => hmem (List.mem_cons_of_mem _ hh))
            · exact IH.2.1 d₀ (hl₁.trans hd₀)
            · rcases List.mem_cons.1 hmem with rfl | hmem'
              · exact absurd rfl hne
              · exact IH.2.2 (hl₁.trans hnone) hmem'

/-! ## Helper lemmas: the predicate mapping, field by field -/

/-- Closed form of the elif-chain: exactly one field changes, selected by
exact IRI equality; every unrecognized predicate changes nothing. -/
lemma updateField_eq (d : Data) (p o : String) :
    updateField d p o =
      if p = byteSizeIRI then (pyParseInt o).map (fun n => { d with size := n })
      else some { d with
        name := if p = productNameIRI then o else d.name
        title := if p = titleIRI then o else d.title
        description := if p = descriptionIRI then o else d.description
        creator := if p = creatorIRI then o else d.creator
        categories := if p = themeIRI then d.categories ++ [o] else d.categories
        genre := if p = typeIRI then o else d.genre
        url := if p = accessURLIRI then o else d.url
        content_type := if p = mediaTypeIRI then o else d.content_type } := by
  by_cases h1 : p = productNameIRI
  · subst h1
    simp [updateField, productNameIRI, titleIRI, descriptionIRI, creatorIRI, themeIRI,
      typeIRI, byteSizeIRI, accessURLIRI, mediaTypeIRI]
  by_cases h2 : p = titleIRI
  · subst h2
    simp [updateField, productNameIRI, titleIRI, descriptionIRI, creatorIRI, themeIRI,
      typeIRI, byteSizeIRI, accessURLIRI, mediaTypeIRI]
  by_cases h3 : p = descriptionIRI
  · subst h3
    simp [updateField, productNameIRI, titleIRI, descriptionIRI, creatorIRI, themeIRI,
      typeIRI, byteSizeIRI, accessURLIRI, mediaTypeIRI]
  by_cases h4 : p = creatorIRI
  · subst h4
    simp [updateField, productNameIRI, titleIRI, descriptionIRI, creatorIRI, themeIRI,
      typeIRI, byteSizeIRI, accessURLIRI, mediaTypeIRI]
  by_cases h5 : p = themeIRI
  · subst h5
    simp [updateField, productNameIRI, titleIRI, descriptionIRI, creatorIRI, themeIRI,
      typeIRI, byteSizeIRI, accessURLIRI, mediaTypeIRI]
  by_cases h6 : p = typeIRI
  · subst h6
    simp [updateField, productNameIRI, titleIRI, descriptionIRI, creatorIRI, themeIRI,
      typeIRI, byteSizeIRI, accessURLIRI, mediaTypeIRI]
  by_cases h7 : p = byteSizeIRI
  · subst h7
    simp [updateField, productNameIRI, titleIRI, descriptionIRI, creatorIRI, themeIRI,
      typeIRI, byteSizeIRI, accessURLIRI, mediaTypeIRI]
  by_cases h8 : p = accessURLIRI
  · subst h8
    simp [updateField, productNameIRI, titleIRI, descriptionIRI, creatorIRI, themeIRI,
      typeIRI, byteSizeIRI, accessURLIRI, mediaTypeIRI]
  by_cases h9 : p = mediaTypeIRI
  · subst h9
    simp [updateField, productNameIRI, titleIRI, descriptionIRI, creatorIRI, themeIRI,
      typeIRI, byteSizeIRI, accessURLIRI, mediaTypeIRI]
  · simp [updateField, h1, h2, h3, h4, h5, h6, h7, h8, h9]

/-- Field-by-field consequence of one successful `updateField` step. -/
lemma updateField_some_fields (d : Data) (p o : String) (d' : Data)
    (h : updateField d p o = some d') :
    d'.name = (if p = productNameIRI then o else d.name) ∧
    d'.title = (if p = titleIRI then o else d.title) ∧
    d'.description = (if p = descriptionIRI then o else d.description) ∧
    d'.creator = (if p = creatorIRI then o else d.creator) ∧
    d'.genre = (if p = typeIRI then o else d.genre) ∧
    d'.url = (if p = accessURLIRI then o else d.url) ∧
    d'.content_type = (if p = mediaTypeIRI then o else d.content_type) ∧
    d'.org = d.org ∧
    d'.categories = (if p = themeIRI then d.categories ++ [o] else d.categories) ∧
    (p = byteSizeIRI → pyParseInt o = some d'.size) ∧
    (p ≠ byteSizeIRI → d'.size = d.size) := by
  rw [updateField_eq] at h
  by_cases hb : p = byteSizeIRI
  · rw [if_pos hb] at h
    subst hb
    rcases hpi : pyParseInt o with _ | n
    · rw [hpi] at h
      cases h
    · rw [hpi] at h
      simp only [Option.map_some', Option.some.injEq] at h
      subst h
      simp [hpi, productNameIRI, titleIRI, descriptionIRI, creatorIRI, themeIRI,
        typeIRI, byteSizeIRI, accessURLIRI, mediaTypeIRI]
  · rw [if_neg hb] at h
    simp only [Option.some.injEq] at h
    subst h
    simp [hb]

/-- Unrecognized predicates leave the accumulator untouched. -/
lemma updateField_unrecognized (d : Data) (p o : String)
    (h : p ∉ recognizedPredicates) : updateField d p o = some d := by
  simp only [recognizedPredicates, List.mem_cons, List.not_mem_nil, or_false, not_or] at h
  obtain ⟨h1, h2, h3, h4, h5, h6, h7, h8, h9⟩ := h
  simp [updateField, h1, h2, h3, h4, h5, h6, h7, h8, h9]

/-! ## Helper lemmas: `getLast?` and per-predicate object streams -/

lemma getLast?_cons_eq_some (l : List String) : ∀ a : String,
    (a :: l).getLast? = some ((l.getLast?).getD a) := by
  induction l with
  | nil => intro a; rfl
  | cons b l' ih =>
    intro a
    rw [List.getLast?_cons_cons, ih b]
    simp

lemma getLast?_getD_cons (l : List String) (a x : String) :
    ((a :: l).getLast?).getD x = (l.getLast?).getD a := by
  rw [getLast?_cons_eq_some]
  simp

lemma objsOf_cons (q p o : String) (rest : List (String × String)) :
    objsOf q ((p, o) :: rest) =
      if p = q then o :: objsOf q rest else objsOf q rest := by
  by_cases h : p = q <;> simp [objsOf, List.filter_cons, h]

/-! ## Helper lemmas: folding the predicate mapping over one subject -/

/-- Last-write-wins for any single-valued string field: after the fold,
the field holds the object of the last row carrying its predicate (or the
starting value if no such row exists). `hq` states how one update step
treats the field. -/
lemma applyPreds_stringField (f : Data → String) (q : String)
    (hq : ∀ d p o d', updateField d p o = some d' →
      f d' = if p = q then o else f d) :
    ∀ (rs : List (String × String)) (d d' : Data),
      applyPreds d rs = some d' →
      f d' = ((objsOf q rs).getLast?).getD (f d) := by
  intro rs
  induction rs with
  | nil =>
    intro d d' h
    simp only [applyPreds, Option.some.injEq] at h
    subst h
    simp [objsOf]
  | cons po rest ih =>
    obtain ⟨p, o⟩ := po
    intro d d' h
    rw [applyPreds_cons] at h
    rcases hud : updateField d p o with _ | d₁
    · rw [hud] at h
      cases h
    · rw [hud] at h
      simp only at h
      have hf := hq d p o d₁ hud
      by_cases hpq : p = q
      · rw [if_pos hpq] at hf
        rw [objsOf_cons, if_pos hpq, getLast?_getD_cons]
        rw [ih d₁ d' h, hf]
      · rw [if_neg hpq] at hf
        rw [objsOf_cons, if_neg hpq]
        rw [ih d₁ d' h, hf]

/-- The categories list accumulates exactly the theme objects, in row
order, appended after the starting list. -/
lemma applyPreds_categories :
    ∀ (rs : List (String × String)) (d d' : Data),
      applyPreds d rs = some d' →
      d'.categories = d.categories ++ objsOf themeIRI rs := by
  intro rs
  induction rs with
  | nil =>
    intro d d' h
    simp only [applyPreds, Option.some.injEq] at h
    subst h
    simp [objsOf]
  | cons po rest ih =>
    obtain ⟨p, o⟩ := po
    intro d d' h
    rw [applyPreds_cons] at h
    rcases hud : updateField d p o with _ | d₁
    · rw [hud] at h
      cases h
    · rw [hud] at h
      simp only at h
      have hf := (updateField_some_fields d p o d₁ hud).2.2.2.2.2.2.2.2.1
      by_cases hpq : p = themeIRI
      · rw [if_pos hpq] at hf
        rw [objsOf_cons, if_pos hpq]
        rw [ih d₁ d' h, hf]
        simp
      · rw [if_neg hpq] at hf
        rw [objsOf_cons, if_neg hpq]
        rw [ih d₁ d' h, hf]

/-- Last-write-wins for the integer size field: the final size is the
parse of the last byte-size object (the parse necessarily succeeded), or
the starting size if no byte-size row exists. -/
lemma applyPreds_size :
    ∀ (rs : List (String × String)) (d d' : Data),
      applyPreds d rs = some d' →
      match (objsOf byteSizeIRI rs).getLast? with
      | none => d'.size = d.size
      | some o => pyParseInt o = some d'.size := by
  intro rs
  induction rs with
  | nil =>
    intro d d' h
    simp only [applyPreds, Option.some.injEq] at h
    subst h
    simp [objsOf]
  | cons po rest ih =>
    obtain ⟨p, o⟩ := po
    intro d d' h
    rw [applyPreds_cons] at h
    rcases hud : updateField d p o with _ | d₁
    · rw [hud] at h
      cases h
    · rw [hud] at h
      simp only at h
      have hfields := updateField_some_fields d p o d₁ hud
      have IH := ih d₁ d' h
      by_cases hpq : p = byteSizeIRI
      · have hparse := hfields.2.2.2.2.2.2.2.2.2.1 hpq
        rw [objsOf_cons, if_pos hpq, getLast?_cons_eq_some]
        rcases hg : (objsOf byteSizeIRI rest).getLast? with _ | o'
        · rw [hg] at IH
          simp only at IH
          simp only [hg, Option.getD_none]
          rw [hparse, IH]
        · rw [hg] at IH
          simp only at IH
          simp only [hg, Option.getD_some]
          exact IH
      · have hsize := hfields.2.2.2.2.2.2.2.2.2.2 hpq
        rw [objsOf_cons, if_neg hpq]
        rcases hg : (objsOf byteSizeIRI rest).getLast? with _ | o'
        · rw [hg] at IH
          simp only at IH
          rw [IH, hsize]
        · rw [hg] at IH
          simp only at IH
          exact IH

/-- Rows made only of unrecognized predicates leave the accumulator
exactly as it started. -/
lemma applyPreds_unrecognized :
    ∀ (rs : List (String × String)) (d : Data),
      (∀ po ∈ rs, po.1 ∉ recognizedPredicates) → applyPreds d rs = some d := by
  intro rs
  induction rs with
  | nil => intro d _; rfl
  | cons po rest ih =>
    obtain ⟨p, o⟩ := po
    intro d h
    rw [applyPreds_cons]
    rw [updateField_unrecognized d p o (h (p, o) (List.mem_cons_self _ _))]
    exact ih d (fun q hq => h q (List.mem_cons_of_mem _ hq))

/-! ## Helper lemmas: the Deduplicator -/

lemma dedupGo_sublist (seen : List (String × String)) :
    ∀ l : List Data, List.Sublist (dedupGo seen l) l := by
  intro l
  induction l generalizing seen with
  | nil => simp [dedupGo]
  | cons d rest ih =>
    rw [dedupGo]
    by_cases h : dataKey d ∈ seen
    · rw [if_pos h]
      exact (ih seen).trans (List.sublist_cons_self d rest)
    · rw [if_neg h]
      exact List.Sublist.cons₂ d (ih _)

lemma dedupGo_key_not_mem_seen (seen : List (String × String)) :
    ∀ (l : List Data) (d' : Data), d' ∈ dedupGo seen l → dataKey d' ∉ seen := by
  intro l
  induction l generalizing seen with
  | nil => intro d' h; cases h
  | cons d rest ih =>
    intro d' h'
    rw [dedupGo] at h'
    by_cases h : dataKey d ∈ seen
    · rw [if_pos h] at h'
      exact ih seen d' h'
    · rw [if_neg h] at h'
      rcases List.mem_cons.1 h' with rfl | h'
      · exact h
      · intro hmem
        exact ih _ d' h' (List.mem_cons_of_mem _ hmem)

lemma dedupGo_keys_nodup (seen : List (String × String)) :
    ∀ l : List Data, ((dedupGo seen l).map dataKey).Nodup := by
  intro l
  induction l generalizing seen with
  | nil => simp [dedupGo]
  | cons d rest ih =>
    rw [dedupGo]
    by_cases h : dataKey d ∈ seen
    · rw [if_pos h]
      exact ih seen
    · rw [if_neg h]
      rw [List.map_cons]
      refine List.nodup_cons.2 ⟨?_, ih _⟩
      intro hmem
      rcases List.mem_map.1 hmem with ⟨d', hd', hkey⟩
      exact dedupGo_key_not_mem_seen _ _ d' hd' (hkey ▸ List.mem_cons_self _ _)

lemma dedupGo_complete (seen : List (String × String)) :
    ∀ (l : List Data) (d : Data), d ∈ l → dataKey d ∉ seen →
      ∃ d' ∈ dedupGo seen l, dataKey d' = dataKey d := by
  intro l
  induction l generalizing seen with
  | nil => intro d h; cases h
  | cons a rest ih =>
    intro d hd hns
    rw [dedupGo]
    by_cases h : dataKey a ∈ seen
    · rw [if_pos h]
      rcases List.mem_cons.1 hd with rfl | hd'
      · exact absurd h hns
      · exact ih seen d hd' hns
    · rw [if_neg h]
      by_cases hk : dataKey d = dataKey a
      · exact ⟨a, List.mem_cons_self _ _, hk.symm⟩
      · rcases List.mem_cons.1 hd with rfl | hd'
        · exact absurd rfl hk
        · rcases ih (dataKey a :: seen) d hd'
              (by simp [hns, fun hh => hk hh]) with ⟨d', hmem, hkey⟩
          exact ⟨d', List.mem_cons_of_mem _ hmem, hkey⟩

lemma dedupGo_find? (seen : List (String × String)) :
    ∀ (l : List Data) (d' : Data), d' ∈ dedupGo seen l →
      l.find? (fun x => decide (dataKey x = dataKey d')) = some d' := by
  intro l
  induction l generalizing seen with
  | nil => intro d' h; cases h
  | cons a rest ih =>
    intro d' h'
    rw [dedupGo] at h'
    by_cases h : dataKey a ∈ seen
    · rw [if_pos h] at h'
      have hne : dataKey a ≠ dataKey d' :=
        fun hh => dedupGo_key_not_mem_seen seen rest d' h' (hh ▸ h)
      rw [List.find?_cons_of_neg _ (by simp [hne])]
      exact ih seen d' h'
    · rw [if_neg h] at h'
      rcases List.mem_cons.1 h' with rfl | h'
      · exact List.find?_cons_of_pos _ (by simp)
      · have hni := dedupGo_key_not_mem_seen _ rest d' h'
        have hne : dataKey a ≠ dataKey d' :=
          fun hh => hni (hh ▸ List.mem_cons_self _ _)
        rw [List.find?_cons_of_neg _ (by simp [hne])]
        exact ih _ d' h'

lemma dedupGo_eq_self (seen : List (String × String)) :
    ∀ l : List Data, (∀ d ∈ l, dataKey d ∉ seen) → (l.map dataKey).Nodup →
      dedupGo seen l = l := by
  intro l
  induction l generalizing seen with
  | nil => intro _ _; rfl
  | cons a rest ih =>
    intro hns hnd
    rw [dedupGo, if_neg (hns a (List.mem_cons_self _ _))]
    rw [List.map_cons, List.nodup_cons] at hnd
    refine congrArg _ (ih _ (fun d hd => ?_) hnd.2)
    rw [List.mem_cons, not_or]
    refine ⟨fun hh => hnd.1 (hh ▸ List.mem_map_of_mem dataKey hd), hns d (List.mem_cons_of_mem _ hd)⟩

/-! ## Helper lemmas: the cartesian search loop -/

lemma foldl_extend (f : String → List Data) (gens : List String) :
    ∀ acc : List Data,
      gens.foldl (fun acc g => acc ++ f g) acc = acc ++ gens.flatMap f := by
  induction gens with
  | nil => intro acc; simp
  | cons g rest ih =>
    intro acc
    rw [List.foldl_cons, ih, List.flatMap_cons, List.append_assoc]

lemma search_loop_eq (getData : List String → String → String → List Data)
    (categories genres : List String) :
    ∀ acc : List Data,
      categories.foldl
          (fun acc c => genres.foldl (fun acc g => acc ++ getData [c] g "text/csv") acc) acc
        = acc ++ (categories.product genres).flatMap
            (fun p => getData [p.1] p.2 "text/csv") := by
  induction categories with
  | nil => intro acc; simp [List.product]
  | cons c rest ih =>
    intro acc
    rw [List.foldl_cons, foldl_extend (fun g => getData [c] g "text/csv"), ih]
    rw [List.append_assoc]
    refine congrArg _ ?_
    simp only [List.product, List.flatMap_cons, List.flatMap_append, List.flatMap_map]

/-! ## Concrete fixtures for witnesses and counterexamples -/

/-- A dataset record with key `("a", "c")`. -/
def exA : Data :=
  { name := "a", title := "t1", description := "", org := "o", url := "",
    content_type := "", creator := "c", categories := [], genre := "", size := 1 }

/-- A different record sharing `exA`'s `(name, creator)` key. -/
def exA2 : Data :=
  { exA with title := "t2", size := 2 }

/-- A record with a distinct key `("b", "c")`. -/
def exB : Data :=
  { exA with name := "b", title := "t3" }

/-- The raw triple rows of the end-to-end scenario in the specification
(header row followed by five well-formed rows). -/
def exRows : List (List String) :=
  [["subject", "predicate", "object"],
   ["s1", "http://purl.org/dc/terms/title", "Sales Q1"],
   ["s1", "http://purl.org/dc/terms/creator", "Acme"],
   ["s1", "http://www.w3.org/ns/dcat#byteSize", "1024"],
   ["s2", "http://purl.org/dc/terms/title", "Sales Q1"],
   ["s2", "http://purl.org/dc/terms/creator", "Acme"]]

/-- The accumulator map `parseRows` produces for `exRows` (checked by
evaluation in the witnesses). -/
def exM : AccMap :=
  [("s1", { name := "", title := "Sales Q1", description := "", org := "o", url := "",
            content_type := "", creator := "Acme", categories := [], genre := "",
            size := 1024 }),
   ("s2", { name := "", title := "Sales Q1", description := "", org := "o", url := "",
            content_type := "", creator := "Acme", categories := [], genre := "",
            size := 0 })]

/-! ## Claim theorems -/

/-- C2: the Deduplicator keeps, for each `(name, creator)` key, exactly
the first-encountered record and drops every later record with the same
key, preserving the relative order of survivors: the output is a sublist
of the input, its keys are pairwise distinct, every input key is
represented, and each surviving record is the first element of the input
carrying its key (so of any two records `A`, `B` with equal keys only the
first-encountered one appears). -/
theorem dedup_keeps_first_by_key (l : List Data) :
    List.Sublist (removeDuplicates l) l ∧
    ((removeDuplicates l).map dataKey).Nodup ∧
    (∀ d ∈ l, ∃ d' ∈ removeDuplicates l, dataKey d' = dataKey d) ∧
    (∀ d' ∈ removeDuplicates l,
      l.find? (fun x => decide (dataKey x = dataKey d')) = some d') :=
  ⟨dedupGo_sublist [] l, dedupGo_keys_nodup [] l,
    fun d hd => dedupGo_complete [] l d hd (by simp),
    fun d' hd' => dedupGo_find? [] l d' hd'⟩

/-- Witness for C2 on a concrete list: of the two records sharing key
`("a", "c")` only the first survives, and the survivors keep their
relative order. -/
theorem dedup_keeps_first_by_key_witness :
    removeDuplicates [exA, exA2, exB] = [exA, exB] ∧
    List.Sublist (removeDuplicates [exA, exA2, exB]) [exA, exA2, exB] :=
  ⟨by decide, (dedup_keeps_first_by_key [exA, exA2, exB]).1⟩

/-- C8: the `(name, creator)` deduplication pass is idempotent — applied
to its own output it returns that output unchanged — and never lengthens
its input. -/
theorem dedup_idempotent (l : List Data) :
    removeDuplicates (removeDuplicates l) = removeDuplicates l ∧
    (removeDuplicates l).length ≤ l.length :=
  ⟨dedupGo_eq_self [] _ (fun d hd => by simp) (dedupGo_keys_nodup [] l),
   (dedupGo_sublist [] l).length_le⟩

/-- Witness for C8 at a concrete input. -/
theorem dedup_idempotent_witness :
    removeDuplicates (removeDuplicates [exA, exA2, exB])
        = removeDuplicates [exA, exA2, exB] ∧
    (removeDuplicates [exA, exA2, exB]).length ≤ [exA, exA2, exB].length :=
  dedup_idempotent [exA, exA2, exB]

/-- C3 (evaluation of the code at the failing input): with an empty
category or genre list the filter-expression builder emits a constraint
containing an empty `IN ()` — `FILTER(?theme IN ())` respectively
`FILTER(?type IN ())` — which is invalid SPARQL syntax, not the absence
of a constraint; a non-empty list produces the expected quoted list. -/
theorem empty_keyword_list_emits_empty_in :
    category_filter [] = "FILTER(?theme IN ())" ∧
    genre_filter [] = "FILTER(?type IN ())" ∧
    category_filter ["healthcare"] = "FILTER(?theme IN (\"healthcare\"))" := by
  refine ⟨rfl, rfl, ?_⟩
  decide

/-- C4 counterexample: processing a mediaType row whose object is the
URL-shaped string `http://example.org/formats/csv` stores the whole URL
as `content_type`, not the trailing path segment `csv`. -/
theorem mediaType_url_not_normalized :
    (parse_data "o"
        [["subject", "predicate", "object"],
         ["s1", "http://www.w3.org/ns/dcat#mediaType", "http://example.org/formats/csv"]]).map
        (List.map Data.content_type)
      = some ["http://example.org/formats/csv"] ∧
    "http://example.org/formats/csv" ≠ "csv" :=
  ⟨by decide, by decide⟩

/-- C4 (amended): the Triple Parser stores the mediaType object into
`content_type` verbatim in every case — URL-shaped objects included — so
`"text/csv"` is stored verbatim, and no URL is normalized to its trailing
path segment. -/
theorem mediaType_stored_verbatim (d : Data) (obj : String) :
    updateField d mediaTypeIRI obj = some { d with content_type := obj } := by
  rw [updateField_eq, if_neg (by decide)]
  simp [productNameIRI, titleIRI, descriptionIRI, creatorIRI, themeIRI,
    typeIRI, byteSizeIRI, accessURLIRI, mediaTypeIRI]

/-- Witness for C4's amended statement at concrete inputs. -/
theorem mediaType_stored_verbatim_witness :
    updateField (defaultData "o") mediaTypeIRI "text/csv"
      = some { defaultData "o" with content_type := "text/csv" } :=
  mediaType_stored_verbatim (defaultData "o") "text/csv"

lemma parseRows_filter_wf (org : String) :
    ∀ (rows : List (List String)) (m : AccMap),
      parseRows org m (rows.filter (fun r => !decide (r.length < 3)))
        = parseRows org m rows := by
  intro rows
  induction rows with
  | nil => intro m; rfl
  | cons r rest ih =>
    intro m
    by_cases h : r.length < 3
    · rw [List.filter_cons, if_neg (by simp [h])]
      rw [parseRows, parseRow_short org m r h]
      exact ih m
    · rw [List.filter_cons, if_pos (by simp [h])]
      rw [parseRows, parseRows]
      rcases hpr : parseRow org m r with _ | m₁
      · rfl
      · exact ih m₁

lemma parseRows_all_short (org : String) :
    ∀ (rows : List (List String)) (m : AccMap),
      (∀ r ∈ rows, r.length < 3) → parseRows org m rows = some m := by
  intro rows
  induction rows with
  | nil => intro m _; rfl
  | cons r rest ih =>
    intro m h
    rw [parseRows, parseRow_short org m r (h r (List.mem_cons_self _ _))]
    exact ih m (fun q hq => h q (List.mem_cons_of_mem _ hq))

/-- C5: the Triple Parser discards the first (header) row — the result
does not depend on its content — and silently skips every row with fewer
than 3 fields: dropping all short rows first changes nothing (so they
contribute nothing to the output), and an input made only of short rows
completes without failing, leaving the accumulator untouched. -/
theorem parser_skips_header_and_short_rows (org : String) :
    (∀ (h₁ h₂ : List String) (rest : List (List String)),
      parse_data org (h₁ :: rest) = parse_data org (h₂ :: rest)) ∧
    (∀ rows : List (List String),
      parse_data org rows
        = (parseRows org [] (rows.tail.filter (fun r => !decide (r.length < 3)))).map
            (fun m => m.map Prod.snd)) ∧
    (∀ (m : AccMap) (rows : List (List String)),
      (∀ r ∈ rows, r.length < 3) → parseRows org m rows = some m) := by
  refine ⟨fun h₁ h₂ rest => rfl, fun rows => ?_,
    fun m rows h => parseRows_all_short org rows m h⟩
  rw [parse_data, parseRows_filter_wf org rows.tail []]

/-- Witness for C5: a header of a different shape and two short rows
produce the same (empty) output, without failing. -/
theorem parser_skips_header_and_short_rows_witness :
    parse_data "o" [["only-header"], ["x"], ["a", "b"]] = parse_data "o" [[], ["x"], ["a", "b"]] ∧
    parseRows "o" [] [["x"], ["a", "b"]] = some [] ∧
    parse_data "o" [["only-header"], ["x"], ["a", "b"]] = some [] := by
  have h := parser_skips_header_and_short_rows "o"
  exact ⟨h.1 ["only-header"] [] [["x"], ["a", "b"]],
    h.2.2 [] [["x"], ["a", "b"]] (by decide), by decide⟩

/-- C1: Triple Parser record construction. After consuming all rows the
parser emits exactly one Dataset Record per distinct (stripped) subject
of a well-formed row, in order of first appearance (the accumulator
map's insertion order), records being the values of the map in that
order; each recognized predicate is mapped to its field by exact IRI
match (byte size through the integer parse); theme objects are appended
to `categories` in row-occurrence order; unrecognized predicates are
ignored; and a subject none of whose rows carries a recognized predicate
still yields a record with all-default fields (empty strings, empty
categories, size zero — the `org` field holding the caller's
organization, as the accumulator initialises it). -/
theorem triple_parser_record_construction (org : String) (rows : List (List String)) :
    parse_data org rows = (parseRows org [] rows.tail).map (fun m => m.map Prod.snd) ∧
    (∀ m', parseRows org [] rows.tail = some m' →
      m'.map Prod.fst = firstDedupAux [] (subjectsOf rows.tail) ∧
      (m'.map Prod.fst).Nodup ∧
      (∀ s, s ∈ m'.map Prod.fst ↔ s ∈ subjectsOf rows.tail)) ∧
    (∀ (d : Data) (obj : String),
      updateField d productNameIRI obj = some { d with name := obj }) ∧
    (∀ (d : Data) (obj : String),
      updateField d titleIRI obj = some { d with title := obj }) ∧
    (∀ (d : Data) (obj : String),
      updateField d descriptionIRI obj = some { d with description := obj }) ∧
    (∀ (d : Data) (obj : String),
      updateField d creatorIRI obj = some { d with creator := obj }) ∧
    (∀ (d : Data) (obj : String),
      updateField d typeIRI obj = some { d with genre := obj }) ∧
    (∀ (d : Data) (obj : String),
      updateField d accessURLIRI obj = some { d with url := obj }) ∧
    (∀ (d : Data) (obj : String),
      updateField d mediaTypeIRI obj = some { d with content_type := obj }) ∧
    (∀ (d : Data) (obj : String) (n : Int), pyParseInt obj = some n →
      updateField d byteSizeIRI obj = some { d with size := n }) ∧
    (∀ (d : Data) (obj : String),
      updateField d themeIRI obj = some { d with categories := d.categories ++ [obj] }) ∧
    (∀ (d : Data) (p obj : String), p ∉ recognizedPredicates →
      updateField d p obj = some d) ∧
    (∀ (m' : AccMap) (s : String) (d : Data),
      parseRows org [] rows.tail = some m' → lookupA m' s = some d →
      d.categories = objsOf themeIRI (rowsFor s rows.tail)) ∧
    (∀ (m' : AccMap) (s : String) (d : Data),
      parseRows org [] rows.tail = some m' → lookupA m' s = some d →
      (∀ po ∈ rowsFor s rows.tail, po.1 ∉ recognizedPredicates) →
      d = defaultData org) := by
  refine ⟨rfl, ?_, ?_, ?_, ?_, ?_, ?_, ?_, ?_, ?_, ?_, ?_, ?_, ?_⟩
  · intro m' hm
    have hkeys := parseRows_keys org rows.tail [] m' hm
    simp only [List.map_nil, List.nil_append] at hkeys
    refine ⟨hkeys, ?_, ?_⟩
    · rw [hkeys]
      exact nodup_firstDedupAux [] _
    · intro s
      rw [hkeys, mem_firstDedupAux]
      simp
  · intro d obj
    rw [updateField_eq, if_neg (by decide)]
    simp [productNameIRI, titleIRI, descriptionIRI, creatorIRI, themeIRI,
      typeIRI, byteSizeIRI, accessURLIRI, mediaTypeIRI]
  · intro d obj
    rw [updateField_eq, if_neg (by decide)]
    simp [productNameIRI, titleIRI, descriptionIRI, creatorIRI, themeIRI,
      typeIRI, byteSizeIRI, accessURLIRI, mediaTypeIRI]
  · intro d obj
    rw [updateField_eq, if_neg (by decide)]
    simp [productNameIRI, titleIRI, descriptionIRI, creatorIRI, themeIRI,
      typeIRI, byteSizeIRI, accessURLIRI, mediaTypeIRI]
  · intro d obj
    rw [updateField_eq, if_neg (by decide)]
    simp [productNameIRI, titleIRI, descriptionIRI, creatorIRI, themeIRI,
      typeIRI, byteSizeIRI, accessURLIRI, mediaTypeIRI]
  · intro d obj
    rw [updateField_eq, if_neg (by decide)]
    simp [productNameIRI, titleIRI, descriptionIRI, creatorIRI, themeIRI,
      typeIRI, byteSizeIRI, accessURLIRI, mediaTypeIRI]
  · intro d obj
    rw [updateField_eq, if_neg (by decide)]
    simp [productNameIRI, titleIRI, descriptionIRI, creatorIRI, themeIRI,
      typeIRI, byteSizeIRI, accessURLIRI, mediaTypeIRI]
  · intro d obj
    rw [updateField_eq, if_neg (by decide)]
    simp [productNameIRI, titleIRI, descriptionIRI, creatorIRI, themeIRI,
      typeIRI, byteSizeIRI, accessURLIRI, mediaTypeIRI]
  · intro d obj n hn
    rw [updateField_eq, if_pos rfl, hn]
    rfl
  · intro d obj
    rw [updateField_eq, if_neg (by decide)]
    simp [productNameIRI, titleIRI, descriptionIRI, creatorIRI, themeIRI,
      typeIRI, byteSizeIRI, accessURLIRI, mediaTypeIRI]
  · exact fun d p obj h => updateField_unrecognized d p obj h
  · intro m' s d hm hlk
    have hchar := parseRows_lookup org rows.tail [] m' hm s
    have hmem : s ∈ subjectsOf rows.tail := by
      by_contra hns
      rw [hchar.1 rfl hns] at hlk
      cases hlk
    have heq := hchar.2.2 rfl hmem
    rw [hlk] at heq
    have happ := applyPreds_categories (rowsFor s rows.tail) (defaultData org) d heq.symm
    simpa [defaultData] using happ
  · intro m' s d hm hlk hunrec
    have hchar := parseRows_lookup org rows.tail [] m' hm s
    have hmem : s ∈ subjectsOf rows.tail := by
      by_contra hns
      rw [hchar.1 rfl hns] at hlk
      cases hlk
    have heq := hchar.2.2 rfl hmem
    rw [applyPreds_unrecognized _ _ hunrec, hlk] at heq
    exact Option.some.inj heq

/-- Witness for C1 on the specification's end-to-end example: the parser
emits exactly the two subjects `s1`, `s2` in first-appearance order, and
the two records carry the mapped fields. -/
theorem triple_parser_record_construction_witness :
    List.map Prod.fst exM = firstDedupAux [] (subjectsOf exRows.tail) ∧
    (List.map Prod.fst exM).Nodup ∧
    List.map Prod.fst exM = ["s1", "s2"] ∧
    parse_data "o" exRows = some (List.map Prod.snd exM) := by
  have h := (triple_parser_record_construction "o" exRows).2.1 exM (by decide)
  exact ⟨h.1, h.2.1, by decide, by decide⟩

/-- C9: last-write-wins for single-valued fields. On a successful parse,
each emitted record's single-valued fields (name, title, description,
creator, genre, url, content_type) hold the object of the *last* row of
that subject carrying the corresponding predicate — later rows overwrite
earlier ones — falling back to the empty-string default when no such row
exists; the size field holds the integer parse of the last byte-size
object (zero when absent). Only theme rows accumulate instead of
overwriting (see C1's categories conjunct). -/
theorem last_write_wins_single_valued (org : String) (rows : List (List String))
    (m' : AccMap) (s : String) (d : Data)
    (hm : parseRows org [] rows = some m') (hlk : lookupA m' s = some d) :
    d.name = ((objsOf productNameIRI (rowsFor s rows)).getLast?).getD "" ∧
    d.title = ((objsOf titleIRI (rowsFor s rows)).getLast?).getD "" ∧
    d.description = ((objsOf descriptionIRI (rowsFor s rows)).getLast?).getD "" ∧
    d.creator = ((objsOf creatorIRI (rowsFor s rows)).getLast?).getD "" ∧
    d.genre = ((objsOf typeIRI (rowsFor s rows)).getLast?).getD "" ∧
    d.url = ((objsOf accessURLIRI (rowsFor s rows)).getLast?).getD "" ∧
    d.content_type = ((objsOf mediaTypeIRI (rowsFor s rows)).getLast?).getD "" ∧
    (match (objsOf byteSizeIRI (rowsFor s rows)).getLast? with
     | none => d.size = 0
     | some o => pyParseInt o = some d.size) := by
  have hchar := parseRows_lookup org rows [] m' hm s
  have hmem : s ∈ subjectsOf rows := by
    by_contra hns
    rw [hchar.1 rfl hns] at hlk
    cases hlk
  have heq := hchar.2.2 rfl hmem
  rw [hlk] at heq
  have happ := heq.symm
  refine ⟨?_, ?_, ?_, ?_, ?_, ?_, ?_, ?_⟩
  · exact applyPreds_stringField Data.name productNameIRI
      (fun d p o d' h => (updateField_some_fields d p o d' h).1) _ _ d happ
  · exact applyPreds_stringField Data.title titleIRI
      (fun d p o d' h => (updateField_some_fields d p o d' h).2.1) _ _ d happ
  · exact applyPreds_stringField Data.description descriptionIRI
      (fun d p o d' h => (updateField_some_fields d p o d' h).2.2.1) _ _ d happ
  · exact applyPreds_stringField Data.creator creatorIRI
      (fun d p o d' h => (updateField_some_fields d p o d' h).2.2.2.1) _ _ d happ
  · exact applyPreds_stringField Data.genre typeIRI
      (fun d p o d' h => (updateField_some_fields d p o d' h).2.2.2.2.1) _ _ d happ
  · exact applyPreds_stringField Data.url accessURLIRI
      (fun d p o d' h => (updateField_some_fields d p o d' h).2.2.2.2.2.1) _ _ d happ
  · exact applyPreds_stringField Data.content_type mediaTypeIRI
      (fun d p o d' h => (updateField_some_fields d p o d' h).2.2.2.2.2.2.1) _ _ d happ
  · exact applyPreds_size _ _ d happ

/-- The rows of the C9 witness: the same subject writes `title` twice and
`byteSize` twice. -/
def exRows9 : List (List String) :=
  [["s1", "http://purl.org/dc/terms/title", "A"],
   ["s1", "http://www.w3.org/ns/dcat#byteSize", "7"],
   ["s1", "http://purl.org/dc/terms/title", "B"],
   ["s1", "http://www.w3.org/ns/dcat#byteSize", "9"]]

/-- The record the C9 witness rows produce: both overwritten fields hold
the later objects. -/
def exD9 : Data :=
  { name := "", title := "B", description := "", org := "o", url := "",
    content_type := "", creator := "", categories := [], genre := "", size := 9 }

/-- Witness for C9 at a concrete input with two title rows and two
byte-size rows for the same subject: the later objects win. -/
theorem last_write_wins_single_valued_witness :
    exD9.title = ((objsOf titleIRI (rowsFor "s1" exRows9)).getLast?).getD "" ∧
    exD9.title = "B" ∧ exD9.size = 9 := by
  have h := last_write_wins_single_valued "o" exRows9 [("s1", exD9)] "s1" exD9
    (by decide) (by decide)
  exact ⟨h.2.1, by decide, by decide⟩

/-- C7: the cartesian combination strategy issues one `get_data` request
per `(category, genre)` pair of the input lists — filtered by that single
category (as the one-element list `[c]`), that single genre, and the
fixed content type `"text/csv"` — concatenates the per-pair results in
pair-iteration order (the order of `categories.product genres`), and
deduplicates the concatenation by `(name, creator)`. The last two
conjuncts pin down the pair enumeration: every pair of the input lists
occurs, and for duplicate-free inputs it occurs exactly once. -/
theorem cartesian_combination_search
    (getData : List String → String → String → List Data)
    (categories genres : List String) :
    search_nyx_for_files getData categories genres
      = removeDuplicates ((categories.product genres).flatMap
          (fun p => getData [p.1] p.2 "text/csv")) ∧
    (∀ c g, (c, g) ∈ categories.product genres ↔ c ∈ categories ∧ g ∈ genres) ∧
    (categories.Nodup → genres.Nodup → (categories.product genres).Nodup) := by
  refine ⟨?_, ?_, ?_⟩
  · show removeDuplicates (categories.foldl _ []) = _
    rw [search_loop_eq, List.nil_append]
  · intro c g
    exact List.pair_mem_product
  · intro hc hg
    exact List.Nodup.product hc hg

/-- A concrete marketplace stub for the C7 witness. -/
def exGetData : List String → String → String → List Data :=
  fun _ g _ => if g = "g1" then [exA, exA2] else [exB]

/-- Witness for C7: one category and two genres produce the two per-pair
result lists concatenated in order, then deduplicated by `(name,
creator)` — `exA2` (same key as `exA`) is dropped. -/
theorem cartesian_combination_search_witness :
    search_nyx_for_files exGetData ["c1"] ["g1", "g2"]
      = removeDuplicates (((["c1"] : List String).product ["g1", "g2"]).flatMap
          (fun p => exGetData [p.1] p.2 "text/csv")) ∧
    search_nyx_for_files exGetData ["c1"] ["g1", "g2"] = [exA, exB] ∧
    ((["c1"] : List String).product ["g1", "g2"]).Nodup := by
  have h := cartesian_combination_search exGetData ["c1"] ["g1", "g2"]
  exact ⟨h.1, by decide, h.2.2 (by decide) (by decide)⟩

/-- C6: any failure of the keyword-inference round trip returns the
dictionary with `categories = []` and `genres = []` (the `except` branch),
and the Search Orchestrator invoked with that empty keyword set returns
the empty result sequence — the nested loops run zero iterations — with
no failure possible (the embedded functions are total). -/
theorem inference_failure_yields_empty_results
    (getData : List String → String → String → List Data) :
    infer_categories_and_genres none
        = { categories := some [], genres := some [] } ∧
    search_nyx_for_files getData [] [] = [] ∧
    search_nyx_for_files_opt getData
        (infer_categories_and_genres none).categories
        (infer_categories_and_genres none).genres = [] :=
  ⟨rfl, rfl, rfl⟩

/-- Witness for C6 with a stub client that would return results if it
were ever called. -/
theorem inference_failure_yields_empty_results_witness :
    infer_categories_and_genres none
        = { categories := some [], genres := some [] } ∧
    search_nyx_for_files (fun _ _ _ => [exA]) [] [] = [] ∧
    search_nyx_for_files_opt (fun _ _ _ => [exA])
        (infer_categories_and_genres none).categories
        (infer_categories_and_genres none).genres = [] :=
  inference_failure_yields_empty_results (fun _ _ _ => [exA])

/-- C10: if the LLM reply parses as a JSON object lacking the
`categories` or `genres` key, `dict.get` yields `None`, the search step's
broad error handler absorbs the resulting `TypeError`, and
`Retriever.retrieve` returns the empty result sequence without raising. -/
theorem missing_inference_keys_empty_results
    (sparqlExec : String → Option (List (List String))) (org : String)
    (kw : InferredKeywords) (h : kw.categories = none ∨ kw.genres = none) :
    retrieve sparqlExec org (some kw) = [] := by
  rcases kw with ⟨cats, gens⟩
  rcases h with h | h
  · simp only at h
    subst h
    rcases gens with _ | gs <;> rfl
  · simp only at h
    subst h
    rcases cats with _ | cs <;> rfl

/-- Witness for C10 at a concrete reply lacking the `categories` key,
with a stub query endpoint that would return rows if it were reached. -/
theorem missing_inference_keys_empty_results_witness :
    retrieve (fun _ => some [["s", "p", "o"]]) "o"
        (some { categories := none, genres := some ["g"] }) = [] :=
  missing_inference_keys_empty_results (fun _ => some [["s", "p", "o"]]) "o"
    { categories := none, genres := some ["g"] } (Or.inl rfl)

end RAGNyx
